import Mathlib

/-!
Verification of the Epic lab-data extraction and narrative-generation engine
of the marrow report application (class `EpicDataParser` and
`generateCBCParagraph` in the main script file).

The JavaScript source is shallowly embedded: every regular expression of the
source is translated into an executable matcher over `List Char` that follows
the exact backtracking behaviour of the JavaScript regex engine for that
pattern (leftmost match, greedy and lazy quantifier order, alternation order).
JavaScript numbers only ever arise here by `parseFloat` on captures of the
shape `\d+\.?\d*` and are only printed back; on such short decimal literals
parse and print round-trip through IEEE doubles, so values are modelled as
exact rationals.
-/

namespace Marrow

--------------------------------------------------------------------------------
-- Character classes used by the source regexes
--------------------------------------------------------------------------------

/-- JavaScript `\s`, restricted to the ASCII whitespace characters plus
non-breaking space (the only ones that can occur in pasted clinical text). -/
def jsWs (c : Char) : Bool :=
  c = ' ' || c = '\t' || c = '\n' || c = '\r' || c = '\x0b' || c = '\x0c' ||
  c = ' '

/-- The character class `[:\s]` that the source uses between a label and its
value. -/
def isColonWs (c : Char) : Bool :=
  c = ':' || jsWs c

/-- The class `[A-Z]` under the `i` flag: an ASCII letter of either case. -/
def isAsciiLetter (c : Char) : Bool :=
  ('A' ≤ c && c ≤ 'Z') || ('a' ≤ c && c ≤ 'z')

/-- JavaScript `.` (without the `s` flag): any character except a line
terminator. -/
def isDotChar (c : Char) : Bool :=
  !(c = '\n' || c = '\r')

--------------------------------------------------------------------------------
-- Generic string helpers mirroring JavaScript string methods
--------------------------------------------------------------------------------

/-- True when `pat` occurs as a contiguous run inside `l` (helper for
`String.prototype.includes`). -/
def hasInfix (pat : List Char) : List Char → Bool
  | [] => pat.isEmpty
  | c :: t => pat.isPrefixOf (c :: t) || hasInfix pat t

/-- JavaScript `s.includes(pat)`. -/
def jsIncludes (s pat : String) : Bool :=
  hasInfix pat.toList s.toList

/-- JavaScript `s.endsWith(suf)`. -/
def jsEndsWith (s suf : String) : Bool :=
  suf.toList.isSuffixOf s.toList

/-- Split at every occurrence of a separator character (helper for
`String.prototype.split`). -/
def splitOnChar (sep : Char) : List Char → List (List Char)
  | [] => [[]]
  | c :: t =>
    let r := splitOnChar sep t
    if c = sep then [] :: r
    else
      match r with
      | h :: t' => (c :: h) :: t'
      | [] => [[c]]

/-- JavaScript `text.split` at newlines. -/
def jsSplitNewline (s : String) : List String :=
  (splitOnChar '\n' s.toList).map String.mk

/-- JavaScript `s.trim()`: strip whitespace from both ends. -/
def jsTrim (s : String) : String :=
  String.mk (((s.toList.dropWhile jsWs).reverse.dropWhile jsWs).reverse)

/-- JavaScript `s.toLowerCase()` (ASCII). -/
def jsLower (s : String) : String :=
  String.mk (s.toList.map Char.toLower)

/-- JavaScript `s.replace(a, b)` with one-character arguments replaces only
the first occurrence; used by the source as `type.replace(unders, space)`. -/
def replaceFirstChar (a b : Char) : List Char → List Char
  | [] => []
  | c :: t => if c = a then b :: t else c :: replaceFirstChar a b t

/-- Replacement of the first underscore by a space, as in the narrative
composer. -/
def underscoreToSpace (s : String) : String :=
  String.mk (replaceFirstChar '_' ' ' s.toList)

--------------------------------------------------------------------------------
-- Anchored matching primitives
--------------------------------------------------------------------------------

/-- Match a literal (given in lower case) case-insensitively at the head of
the input, returning the rest.  Embeds literal fragments of the `i`-flagged
source regexes. -/
def litCI : List Char → List Char → Option (List Char)
  | [], l => some l
  | _ :: _, [] => none
  | c :: cs, d :: ds => if d.toLower = c then litCI cs ds else none

/-- Greedy match of `\d+\.?\d*` at the head of the input: the captured
characters and the rest.  No backtracking is possible for this fragment
because nothing that follows it in any source regex can extend into it. -/
def matchNum (l : List Char) : Option (List Char × List Char) :=
  let p := l.span Char.isDigit
  if p.1.isEmpty then none
  else
    match p.2 with
    | '.' :: r2 =>
      let q := r2.span Char.isDigit
      some (p.1 ++ '.' :: q.1, q.2)
    | r1 => some (p.1, r1)

/-- Scan start positions left to right, as the JavaScript regex engine does
for an unanchored `match`, and return the first successful anchored match. -/
def scanFirst {α : Type} (m : List Char → Option α) : List Char → Option α
  | [] => m []
  | c :: t =>
    match m (c :: t) with
    | some a => some a
    | none => scanFirst m t

--------------------------------------------------------------------------------
-- Number semantics: parseFloat on captures, template-literal printing
--------------------------------------------------------------------------------

/-- Numeric value of a digit list. -/
def digitsToNat (ds : List Char) : Nat :=
  ds.foldl (fun n c => 10 * n + (c.toNat - 48)) 0

/-- JavaScript `parseFloat`, on the captures of `\d+\.?\d*` produced by the
source patterns (at least one leading digit, optionally a point and more
digits).  On such captures `parseFloat` is total and exact; inputs outside
that shape never reach it in the embedded code. -/
def parseFloatNum (s : String) : ℚ :=
  let p := s.toList.span Char.isDigit
  match p.2 with
  | '.' :: r2 =>
    let q := r2.span Char.isDigit
    mkRat (digitsToNat p.1 * 10 ^ q.1.length + digitsToNat q.1) (10 ^ q.1.length)
  | _ => mkRat (digitsToNat p.1) 1

/-- Smallest decimal exponent of a rational whose denominator divides a power
of ten (all values arising from `parseFloatNum` qualify). -/
def decExp (q : ℚ) : Option ℕ :=
  (List.range 41).find? fun k => 10 ^ k % q.den = 0

/-- Left-pad a numeral with zeros to `k` digits. -/
def padZeros (s : String) (k : ℕ) : String :=
  String.mk (List.replicate (k - s.length) '0') ++ s

/-- JavaScript number-to-string conversion inside a template literal, for the
non-negative decimal values produced by this parser: integers print with no
point, fractions print with the minimal number of decimal digits, exactly as
`String(7.2)` gives `7.2` and `String(55)` gives `55`. -/
def numToString (q : ℚ) : String :=
  match decExp q with
  | some k =>
    let m := q.num.toNat * (10 ^ k / q.den)
    if k = 0 then toString m
    else toString (m / 10 ^ k) ++ "." ++ padZeros (toString (m % 10 ^ k)) k
  | none => ""

--------------------------------------------------------------------------------
-- CBC patterns (`EpicDataParser.cbcPatterns`) and `parseCBC`
--------------------------------------------------------------------------------

/-- One alternative of the date pattern
`(\d{1,2}\/\d{1,2}\/\d{2,4}|\d{1,2}-\d{1,2}-\d{2,4})`, for a given separator:
`\d{1,2}` backtracks from two digits to one, but a digit run of length three
or more leaves a digit before the separator either way, so the run length
must be one or two. -/
def dateNums (sep : Char) (l : List Char) : Option (List Char) :=
  let a := l.span Char.isDigit
  if a.1.length = 0 || 2 < a.1.length then none
  else
    match a.2 with
    | c :: r2 =>
      if c = sep then
        let b := r2.span Char.isDigit
        if b.1.length = 0 || 2 < b.1.length then none
        else
          match b.2 with
          | c' :: r4 =>
            if c' = sep then
              let d := r4.span Char.isDigit
              if 2 ≤ d.1.length then
                some (a.1 ++ sep :: b.1 ++ sep :: d.1.take 4)
              else none
            else none
          | [] => none
      else none
    | [] => none

/-- Anchored match of the date pattern: the `/` alternative is tried before
the `-` alternative, as in the source alternation. -/
def dateAt (l : List Char) : Option (List Char) :=
  match dateNums '/' l with
  | some cap => some cap
  | none => dateNums '-' l

/-- Anchored match of a CBC pattern of the common shape
`LIT[:\s]*(\d+\.?\d*)` with the `i` flag; `[:\s]` and `\d` are disjoint, so
the greedy `[:\s]*` never needs to backtrack. -/
def labeledNumAt (lit : String) (l : List Char) : Option (List Char) :=
  match litCI lit.toList l with
  | some r => (matchNum (r.dropWhile isColonWs)).map Prod.fst
  | none => none

/-- Anchored match of `H[GH]B[:\s]*(\d+\.?\d*)` with the `i` flag. -/
def hgbAt (l : List Char) : Option (List Char) :=
  match l with
  | c1 :: c2 :: c3 :: r =>
    if c1.toLower = 'h' && (c2.toLower = 'g' || c2.toLower = 'h') &&
        c3.toLower = 'b' then
      (matchNum (r.dropWhile isColonWs)).map Prod.fst
    else none
  | _ => none

/-- The fixed label set of `EpicDataParser.cbcPatterns`, in source insertion
order. -/
inductive CBCKey where
  | date | wbc | rbc | hgb | hct | mcv | mch | mchc | plt | mpv | rdw
  deriving DecidableEq, Repr

/-- The JavaScript property name of a CBC label. -/
def cbcKeyName : CBCKey → String
  | .date => "date"
  | .wbc => "wbc"
  | .rbc => "rbc"
  | .hgb => "hgb"
  | .hct => "hct"
  | .mcv => "mcv"
  | .mch => "mch"
  | .mchc => "mchc"
  | .plt => "plt"
  | .mpv => "mpv"
  | .rdw => "rdw"

/-- The anchored matcher of each entry of `cbcPatterns`, capture group 1. -/
def cbcAt : CBCKey → List Char → Option (List Char)
  | .date => dateAt
  | .wbc => labeledNumAt "wbc"
  | .rbc => labeledNumAt "rbc"
  | .hgb => hgbAt
  | .hct => labeledNumAt "hct"
  | .mcv => labeledNumAt "mcv"
  | .mch => labeledNumAt "mch"
  | .mchc => labeledNumAt "mchc"
  | .plt => labeledNumAt "plt"
  | .mpv => labeledNumAt "mpv"
  | .rdw => labeledNumAt "rdw"

/-- The list `Object.keys(this.cbcPatterns)` in insertion order. -/
def cbcKeys : List CBCKey :=
  [.date, .wbc, .rbc, .hgb, .hct, .mcv, .mch, .mchc, .plt, .mpv, .rdw]

/-- A value stored in the `parseCBC` result object: the date label keeps the
matched string, every other label stores `parseFloat` of the capture. -/
inductive CBCVal where
  | str : String → CBCVal
  | num : ℚ → CBCVal
  deriving DecidableEq, Repr

/-- Capture `match[1]` coerced as `parseCBC` does:
`results[key] = key === something ? match[1] : parseFloat(match[1])`
with the date key keeping the raw capture. -/
def cbcCoerce (k : CBCKey) (cap : List Char) : CBCVal :=
  match k with
  | .date => .str (String.mk cap)
  | _ => .num (parseFloatNum (String.mk cap))

/-- First (leftmost) match of the pattern of label `k` in `text`, capture
group 1, i.e. `text.match(this.cbcPatterns[key])`. -/
def cbcFirstCapture (k : CBCKey) (text : String) : Option (List Char) :=
  scanFirst (cbcAt k) text.toList

/-- Embedding of `EpicDataParser.parseCBC`: an association list standing for the `results`
object, with keys in pattern-table order; a label whose pattern does not
match is absent. -/
def parseCBC (text : String) : List (String × CBCVal) :=
  if text = "" then []
  else
    cbcKeys.filterMap fun k =>
      (cbcFirstCapture k text).map fun cap => (cbcKeyName k, cbcCoerce k cap)

--------------------------------------------------------------------------------
-- Differential classifier (`EpicDataParser.parseDifferential`)
--------------------------------------------------------------------------------

/-- Anchored match of `Diff Method[:\s]*(.+)` with the `i` flag, capture
group 1.  The greedy `[:\s]*` backtracks by at most one character: after it
has consumed its maximal run, `(.+)` needs one non-line-terminator character,
which is either the first character after the run or, failing that, the last
character of the run itself. -/
def diffMethodAt (l : List Char) : Option (List Char) :=
  match litCI "diff method".toList l with
  | some r =>
    let p := r.span isColonWs
    match p.2 with
    | c :: t => some (c :: (t.takeWhile isDotChar))
    | [] =>
      match p.1.getLast? with
      | some c => if isDotChar c then some [c] else none
      | none => none
  | none => none

/-- Search `text.match` for the method pattern followed by the `.trim()` of the source:
the trimmed value of the first differential-method declaration found in the
text, if any. -/
def diffMethodOf (text : String) : Option String :=
  (scanFirst diffMethodAt text.toList).map fun cap => jsTrim (String.mk cap)

/-- The tail of the per-line pattern
`^([^:]+?)(?:\s*\([^)]*\))?\s*:\s*(\d+\.?\d*)` after group 1: first the
qualifier-present alternative of the greedy optional group, then the
qualifier-absent one.  Inside the qualifier, `\s*` before `(` and `[^)]*`
before `)` are deterministic because the closing characters are outside the
repeated classes. -/
def pctColonPath (l : List Char) : Option (List Char) :=
  match l.dropWhile jsWs with
  | ':' :: r2 => (matchNum (r2.dropWhile jsWs)).map Prod.fst
  | _ => none

/-- The qualifier-present alternative: `\s*\([^)]*\)` then the colon path. -/
def pctQualPath (l : List Char) : Option (List Char) :=
  match l.dropWhile jsWs with
  | '(' :: r2 =>
    let q := r2.span (fun c => !(c = ')'))
    match q.2 with
    | ')' :: r4 => pctColonPath r4
    | _ => none
  | _ => none

/-- Combined tail after a candidate group 1. -/
def pctAfter (l : List Char) : Option (List Char) :=
  match pctQualPath l with
  | some cap => some cap
  | none => pctColonPath l

/-- The lazy group `([^:]+?)` grows one character at a time, testing the tail
after each extension; it can never contain a colon.  `acc` is the reversed
group 1 collected so far (always non-empty); `pctAfter [] = none`, so an
exhausted rest simply fails. -/
def pctGo (acc : List Char) : List Char → Option (List Char × List Char)
  | [] => none
  | c :: rest' =>
    match pctAfter (c :: rest') with
    | some num => some (acc.reverse, num)
    | none => if c = ':' then none else pctGo (c :: acc) rest'

/-- Anchored (`^`) match of the percentage-line pattern on one line: returns
(raw group 1, numeric capture). -/
def percentLineMatch (line : String) : Option (List Char × List Char) :=
  match line.toList with
  | [] => none
  | c :: rest => if c = ':' then none else pctGo [c] rest

/-- The synonym table of `normalizeCellType`, copied entry for entry. -/
def typeMap : List (String × String) :=
  [ ("neutrophils", "neutrophils")
  , ("neutrophil", "neutrophils")
  , ("polys", "neutrophils")
  , ("poly", "neutrophils")
  , ("lymphs", "lymphocytes")
  , ("lymphocytes", "lymphocytes")
  , ("lymph", "lymphocytes")
  , ("monos", "monocytes")
  , ("monocytes", "monocytes")
  , ("mono", "monocytes")
  , ("eos", "eosinophils")
  , ("eosinophils", "eosinophils")
  , ("eosinophil", "eosinophils")
  , ("basos", "basophils")
  , ("basophils", "basophils")
  , ("basophil", "basophils")
  , ("basos (auto)", "basophils")
  , ("bands", "bands")
  , ("band", "bands")
  , ("blasts", "blasts")
  , ("blast", "blasts")
  , ("metamyelocytes", "metamyelocytes")
  , ("metamyelo", "metamyelocytes")
  , ("meta", "metamyelocytes")
  , ("myelocytes", "myelocytes")
  , ("myelo", "myelocytes")
  , ("promyelocytes", "promyelocytes")
  , ("promyelo", "promyelocytes")
  , ("other", "other")
  , ("unknown", "unknown")
  , ("atypical lymphs", "atypical_lymphocytes")
  , ("reactive lymphs", "atypical_lymphocytes")
  , ("lymphs, atypical/reactive (auto)", "atypical_lymphocytes")
  , ("granulocytes, immature", "immature_granulocytes")
  , ("granulocytes,immature", "immature_granulocytes")
  , ("granulocytes, immature (%)", "immature_granulocytes")
  , ("granulocytes,immature (%)", "immature_granulocytes")
  , ("immature granulocytes", "immature_granulocytes")
  , ("nrbc% (auto)", "nrbc")
  , ("nrbc%", "nrbc") ]

/-- Embedding of `EpicDataParser.normalizeCellType`. -/
def normalizeCellType (cellType : String) : Option String :=
  List.lookup (jsTrim (jsLower cellType)) typeMap

/-- The priority computation of `parseDifferential`: explicit percentage
qualifier, then any other parenthesised qualifier, then a bare label. -/
def priorityOf (cellType : String) : ℕ :=
  if jsIncludes cellType "(%)" || jsIncludes cellType "% (" then 3
  else if jsIncludes cellType "(" then 2
  else 1

/-- One element of the `allMatches` array of `parseDifferential`. -/
structure DiffMatch where
  normalizedType : String
  percentage : ℚ
  priority : ℕ
  originalLine : String
  deriving DecidableEq, Repr

/-- What one line contributes to `allMatches`: nothing for a line holding an
absolute-count marker, otherwise the normalized, prioritised match of the
percentage-line pattern, discarded when the label is not in the synonym
table.  (`isNaN(percentage)` of the source is always false on captures of
`\d+\.?\d*`.) -/
def diffMatchOfLine (line : String) : Option DiffMatch :=
  if jsIncludes line "#" then none
  else
    match percentLineMatch line with
    | some (g1, numCap) =>
      let cellType := jsTrim (String.mk g1)
      match normalizeCellType cellType with
      | some nt =>
        some ⟨nt, parseFloatNum (String.mk numCap), priorityOf cellType, line⟩
      | none => none
    | none => none

/-- Second pass of `parseDifferential` over one match: replace the stored
entry of its canonical type only when the new priority is strictly higher
(a JavaScript object keeps a key at its first-insertion position). -/
def upsertGroup : List (String × DiffMatch) → DiffMatch → List (String × DiffMatch)
  | [], m => [(m.normalizedType, m)]
  | (k, v) :: rest, m =>
    if k = m.normalizedType then
      (k, if v.priority < m.priority then m else v) :: rest
    else (k, v) :: upsertGroup rest m

/-- The `typeGroups` object after folding all matches. -/
def typeGroups (ms : List DiffMatch) : List (String × DiffMatch) :=
  ms.foldl upsertGroup []

/-- The canonical-type to percentage entries produced from a list of lines
(the two collection passes of `parseDifferential`). -/
def diffEntriesOfLines (lines : List String) : List (String × ℚ) :=
  (typeGroups (lines.filterMap diffMatchOfLine)).map fun e => (e.1, e.2.percentage)

/-- The `results` object of `parseDifferential`: the method status
(`diffMethod` key, absent only for falsy input) and the canonical
cell-type percentage entries. -/
structure DiffResult where
  diffMethod : Option String
  entries : List (String × ℚ)
  deriving DecidableEq, Repr

/-- Embedding of `EpicDataParser.parseDifferential`. -/
def parseDifferential (text : String) : DiffResult :=
  if text = "" then ⟨none, []⟩
  else
    match diffMethodOf text with
    | some v =>
      if !(v = "") && jsIncludes v "not performed" then ⟨some v, []⟩
      else
        ⟨some (if v = "" then "Unknown" else v),
         diffEntriesOfLines (jsSplitNewline text)⟩
    | none => ⟨some "Unknown", diffEntriesOfLines (jsSplitNewline text)⟩

--------------------------------------------------------------------------------
-- Morphology extractor (`EpicDataParser.parseMorphology`)
--------------------------------------------------------------------------------

/-- Run `\s+` followed by a literal whose first character is not whitespace:
greedy and deterministic.  Returns the rest after the whitespace run, or
fails when the run is empty. -/
def wsPlus (l : List Char) : Option (List Char) :=
  match l with
  | c :: t => if jsWs c then some (t.dropWhile jsWs) else none
  | [] => none

/-- Anchored match of `Toxic\s+Granulation[:\s]*([A-Z]+)` with the `i`
flag. -/
def toxicAt (l : List Char) : Option (List Char) :=
  match litCI "toxic".toList l with
  | some r =>
    match wsPlus r with
    | some r2 =>
      match litCI "granulation".toList r2 with
      | some r3 =>
        let cap := (r3.dropWhile isColonWs).takeWhile isAsciiLetter
        if cap.isEmpty then none else some cap
      | none => none
    | none => none
  | none => none

/-- Anchored match of `PLTS,\s*giant[:\s]*([A-Z]+)` with the `i` flag. -/
def giantAt (l : List Char) : Option (List Char) :=
  match litCI "plts,".toList l with
  | some r =>
    match litCI "giant".toList (r.dropWhile jsWs) with
    | some r2 =>
      let cap := (r2.dropWhile isColonWs).takeWhile isAsciiLetter
      if cap.isEmpty then none else some cap
    | none => none
  | none => none

/-- Anchored match of `RBC\s+MORPH[:\s]*([A-Z\s]+)` with the `i` flag.  Here
`[:\s]*` and the capture class overlap on whitespace: the greedy run keeps
everything when a letter follows it; otherwise it gives back its final
character to the capture if that character is whitespace (a colon cannot be
captured), and the capture then ends immediately. -/
def rbcMorphAt (l : List Char) : Option (List Char) :=
  match litCI "rbc".toList l with
  | some r =>
    match wsPlus r with
    | some r2 =>
      match litCI "morph".toList r2 with
      | some r3 =>
        let p := r3.span isColonWs
        match p.2 with
        | c :: _ =>
          if isAsciiLetter c then
            some (p.2.takeWhile fun d => isAsciiLetter d || jsWs d)
          else
            match p.1.getLast? with
            | some w => if jsWs w then some [w] else none
            | none => none
        | [] =>
          match p.1.getLast? with
          | some w => if jsWs w then some [w] else none
          | none => none
      | none => none
    | none => none
  | none => none

/-- Anchored match of `Lymphs,\s*atypical\/reactive[:\s]*(\d+\.?\d*)` with
the `i` flag. -/
def atypAt (l : List Char) : Option (List Char) :=
  match litCI "lymphs,".toList l with
  | some r =>
    match litCI "atypical/reactive".toList (r.dropWhile jsWs) with
    | some r2 => (matchNum (r2.dropWhile isColonWs)).map Prod.fst
    | none => none
  | none => none

/-- Anchored match of `NRBC%[^:]*:\s*(\d+\.?\d*)` with the `i` flag: the
greedy `[^:]*` can only stop at the first colon. -/
def nrbcAt (l : List Char) : Option (List Char) :=
  match litCI "nrbc%".toList l with
  | some r =>
    match r.dropWhile (fun c => !(c = ':')) with
    | ':' :: r2 => (matchNum (r2.dropWhile jsWs)).map Prod.fst
    | _ => none
  | none => none

/-- The `results` object of `parseMorphology`: the four pattern-table
findings (stored as trimmed strings) and the separately matched
nucleated-red-cell percentage. -/
structure Morph where
  toxicGranulation : Option String
  giantPlatelets : Option String
  rbcMorph : Option String
  atypicalLymphs : Option String
  nrbc : Option ℚ
  deriving DecidableEq, Repr

/-- Embedding of `EpicDataParser.parseMorphology`: each morphology pattern keeps
`match[1].trim()`; the NRBC pattern keeps `parseFloat(match[1])`. -/
def parseMorphology (text : String) : Morph :=
  if text = "" then ⟨none, none, none, none, none⟩
  else
    ⟨(scanFirst toxicAt text.toList).map fun c => jsTrim (String.mk c),
     (scanFirst giantAt text.toList).map fun c => jsTrim (String.mk c),
     (scanFirst rbcMorphAt text.toList).map fun c => jsTrim (String.mk c),
     (scanFirst atypAt text.toList).map fun c => jsTrim (String.mk c),
     (scanFirst nrbcAt text.toList).map fun c => parseFloatNum (String.mk c)⟩

--------------------------------------------------------------------------------
-- Parse orchestrator (`EpicDataParser.parseAll`)
--------------------------------------------------------------------------------

/-- The bundle returned by `parseAll`. -/
structure Bundle where
  cbc : List (String × CBCVal)
  differential : DiffResult
  morphology : Morph
  raw : String
  deriving DecidableEq, Repr

/-- Embedding of `EpicDataParser.parseAll`. -/
def parseAll (text : String) : Bundle :=
  ⟨parseCBC text, parseDifferential text, parseMorphology text, text⟩

--------------------------------------------------------------------------------
-- Narrative composer (`generateCBCParagraph`)
--------------------------------------------------------------------------------

/-- JavaScript truthiness of a stored lab value: a number is truthy when
non-zero, a string when non-empty. -/
def truthyVal : CBCVal → Bool
  | .str s => !(s = "")
  | .num q => !(q = 0)

/-- A stored value inside a template literal. -/
def cbcValStr : CBCVal → String
  | .str s => s
  | .num q => numToString q

/-- The lead-in sentence: dated when `cbc.date` is truthy. -/
def cbcLeadIn (cbc : List (String × CBCVal)) : String :=
  match List.lookup "date" cbc with
  | some v =>
    if truthyVal v then "CBC results from " ++ cbcValStr v ++ " are as follows: "
    else "CBC results are as follows: "
  | none => "CBC results are as follows: "

/-- The nine narrated labels with their prefixes and units, in the order of
the `if (cbc.X) cbcParts.push(...)` lines of the source (`date` and `mpv`
have no push line). -/
def cbcPartsTable : List (String × String × String) :=
  [ ("wbc", "WBC ", " K/μL")
  , ("rbc", "RBC ", " M/μL")
  , ("hgb", "HGB ", " g/dL")
  , ("hct", "HCT ", "%")
  , ("mcv", "MCV ", " fL")
  , ("mch", "MCH ", " pg")
  , ("mchc", "MCHC ", " g/dL")
  , ("plt", "PLT ", " K/μL")
  , ("rdw", "RDW ", "%") ]

/-- The `cbcParts` array: one rendered fragment per truthy narrated label. -/
def cbcParts (cbc : List (String × CBCVal)) : List String :=
  cbcPartsTable.filterMap fun e =>
    match List.lookup e.1 cbc with
    | some v => if truthyVal v then some (e.2.1 ++ cbcValStr v ++ e.2.2) else none
    | none => none

/-- The CBC sentence of the paragraph, empty when the lab mapping is empty
(`Object.keys(parsed.cbc).length > 0`). -/
def cbcSection (cbc : List (String × CBCVal)) : String :=
  if cbc.isEmpty then ""
  else cbcLeadIn cbc ++ String.intercalate ", " (cbcParts cbc) ++ "."

/-- Count `Object.keys(diff).length` of the differential result object. -/
def diffKeyCount (d : DiffResult) : ℕ :=
  (if d.diffMethod.isSome then 1 else 0) + d.entries.length

/-- Test `diff.diffMethod && diff.diffMethod.includes(...)` of the composer. -/
def diffNotPerformed (d : DiffResult) : Bool :=
  match d.diffMethod with
  | some m => !(m = "") && jsIncludes m "not performed"
  | none => false

/-- Fallback `diff.diffMethod || fallback` of the composer. -/
def diffMethodDisplay (d : DiffResult) : String :=
  match d.diffMethod with
  | some m => if m = "" then "Unknown method" else m
  | none => "Unknown method"

/-- The verb chosen from the method string. -/
def diffVerb (method : String) : String :=
  if jsIncludes (jsLower method) "auto" then " shows "
  else if jsIncludes (jsLower method) "manual" then " demonstrates "
  else " shows "

/-- The fixed rendering order of the differential clause. -/
def orderedTypes : List String :=
  ["neutrophils", "bands", "lymphocytes", "atypical_lymphocytes", "monocytes",
   "eosinophils", "basophils", "metamyelocytes", "myelocytes", "promyelocytes",
   "blasts", "other"]

/-- The `diffParts` array: `diff[type] !== undefined` keeps zero values. -/
def diffParts (d : DiffResult) : List String :=
  orderedTypes.filterMap fun t =>
    (List.lookup t d.entries).map fun q =>
      numToString q ++ "% " ++ underscoreToSpace t

/-- The differential clause of the paragraph, built only when the result
object has more than its method key. -/
def diffSection (d : DiffResult) : String :=
  if 1 < diffKeyCount d then
    if diffNotPerformed d then
      " Differential was not performed due to low WBC count."
    else
      " " ++ diffMethodDisplay d ++ " differential" ++
        diffVerb (diffMethodDisplay d) ++ String.intercalate ", " (diffParts d)
  else ""

/-- The immature-granulocyte fragment (`!== undefined` test). -/
def igPart (d : DiffResult) : Option String :=
  (List.lookup "immature_granulocytes" d.entries).map fun q =>
    numToString q ++ "% immature granulocytes"

/-- The NRBC fragment: a differential-sourced value (even zero) wins over a
truthy morphology-sourced one. -/
def nrbcPart (d : DiffResult) (m : Morph) : Option String :=
  match List.lookup "nrbc" d.entries with
  | some q => some (numToString q ++ "% NRBCs")
  | none =>
    match m.nrbc with
    | some q => if !(q = 0) then some (numToString q ++ "% NRBCs") else none
    | none => none

/-- Test `Object.keys(morph).length > 0`. -/
def morphAny (m : Morph) : Bool :=
  m.toxicGranulation.isSome || m.giantPlatelets.isSome || m.rbcMorph.isSome ||
  m.atypicalLymphs.isSome || m.nrbc.isSome

/-- The four qualitative morphology fragments, guarded as in the source. -/
def morphFlagParts (m : Morph) : List String :=
  if morphAny m then
    List.filterMap id
      [ match m.toxicGranulation with
        | some t => if jsLower t = "present" then some "toxic granulation" else none
        | none => none
      , match m.giantPlatelets with
        | some t => if jsLower t = "present" then some "giant platelets" else none
        | none => none
      , match m.atypicalLymphs with
        | some s =>
          if !(s = "") then some (s ++ "% atypical/reactive lymphocytes") else none
        | none => none
      , match m.rbcMorph with
        | some r =>
          if !(r = "") && !(jsLower r = "normal") && !(jsLower r = "completed")
          then some ("RBC morphology: " ++ jsLower r) else none
        | none => none ]
  else []

/-- The `morphParts` array in source push order. -/
def morphParts (d : DiffResult) (m : Morph) : List String :=
  (igPart d).toList ++ (nrbcPart d m).toList ++ morphFlagParts m

/-- Embedding of `generateCBCParagraph`: the paragraph string built from a parsed bundle
(the DOM display and the global stash of the source are side effects outside
the computation of the text). -/
def generateCBCParagraph (b : Bundle) : String :=
  let p := cbcSection b.cbc ++ diffSection b.differential
  let mp := morphParts b.differential b.morphology
  if !mp.isEmpty then
    if jsEndsWith (jsTrim p) "," || jsIncludes p "shows" then
      p ++ ", " ++ String.intercalate ", " mp ++ "."
    else
      p ++ " " ++ String.intercalate ", " mp ++ "."
  else
    if jsEndsWith (jsTrim p) "," ||
        (jsIncludes p "shows" && !(jsEndsWith (jsTrim p) ".")) then
      p ++ "."
    else p

--------------------------------------------------------------------------------
-- Claim theorems
--------------------------------------------------------------------------------

/-- C1: the claim says a percent-qualified line such as `Lymphs (%): 42`
receives priority rank 3 and beats a plain `Lymphs: 40`, resolving
lymphocytes to 42.  The code disagrees: the per-line regex consumes the
parenthesised qualifier in a non-capturing group, so the captured label of
`Lymphs (%): 42` is just `Lymphs`; both lines get rank 1 and the strict
comparison keeps the first-seen value 40.  This theorem evaluates the code at
that failing input and exhibits the mechanism on the qualified line. -/
theorem c1_percent_qualifier_defeated :
    (parseDifferential "Lymphs: 40\nLymphs (%): 42").entries =
      [("lymphocytes", (40 : ℚ))] ∧
    percentLineMatch "Lymphs (%): 42" =
      some ("Lymphs".toList, "42".toList) ∧
    priorityOf "Lymphs" = 1 := by
  decide

/-- C2: the claim says an input with a `Diff Method` line whose value
includes `not performed` yields a paragraph containing the fixed
not-performed sentence.  The code cannot produce that sentence from a parsed
bundle: the short-circuited differential result holds only its method key,
and the sentence-emitting branch requires more than one key.  This theorem
evaluates the code at such an input: the paragraph is only the CBC sentence
and the fixed sentence is absent. -/
theorem c2_not_performed_sentence_unreachable :
    generateCBCParagraph (parseAll "WBC: 7.2\nDiff Method: not performed") =
      "CBC results are as follows: WBC 7.2 K/μL." ∧
    jsIncludes
      (generateCBCParagraph (parseAll "WBC: 7.2\nDiff Method: not performed"))
      "Differential was not performed" = false := by
  decide

/-- C5: the end-to-end scenario: the fixed five-line input yields exactly the
claimed lab mapping, the claimed canonical percentage mapping, and a
paragraph opening with the claimed CBC sentence, mentioning the claimed
differential clause and the claimed NRBC continuation. -/
theorem c5_end_to_end :
    (parseAll "WBC: 7.2\nHGB: 13.1\nNeutrophils (%): 55\nLymphs: 30\nNRBC%: 2").cbc =
      [("wbc", CBCVal.num (mkRat 36 5)), ("hgb", CBCVal.num (mkRat 131 10))] ∧
    (parseAll "WBC: 7.2\nHGB: 13.1\nNeutrophils (%): 55\nLymphs: 30\nNRBC%: 2").differential.entries =
      [("neutrophils", (55 : ℚ)), ("lymphocytes", (30 : ℚ)), ("nrbc", (2 : ℚ))] ∧
    "CBC results are as follows: WBC 7.2 K/μL, HGB 13.1 g/dL.".toList.isPrefixOf
      (generateCBCParagraph
        (parseAll "WBC: 7.2\nHGB: 13.1\nNeutrophils (%): 55\nLymphs: 30\nNRBC%: 2")).toList = true ∧
    jsIncludes
      (generateCBCParagraph
        (parseAll "WBC: 7.2\nHGB: 13.1\nNeutrophils (%): 55\nLymphs: 30\nNRBC%: 2"))
      "55% neutrophils, 30% lymphocytes" = true ∧
    jsIncludes
      (generateCBCParagraph
        (parseAll "WBC: 7.2\nHGB: 13.1\nNeutrophils (%): 55\nLymphs: 30\nNRBC%: 2"))
      "2% NRBCs." = true := by
  decide

/-- C6 counterexample: the claim says the paragraph lists every present lab
value.  MPV is parsed into the lab mapping but has no rendering line in the
composer: the bundle of `MPV: 9.9` has a non-empty lab mapping, yet its
paragraph is the bare lead-in and never mentions MPV. -/
theorem c6_mpv_not_listed :
    (parseAll "MPV: 9.9").cbc = [("mpv", CBCVal.num (mkRat 99 10))] ∧
    generateCBCParagraph (parseAll "MPV: 9.9") = "CBC results are as follows: ." ∧
    jsIncludes (generateCBCParagraph (parseAll "MPV: 9.9")) "MPV" = false := by
  decide

--------------------------------------------------------------------------------
-- Helper lemmas
--------------------------------------------------------------------------------

/-- The pattern matchers never succeed on an empty input. -/
lemma cbcAt_nil (k : CBCKey) : cbcAt k [] = none := by
  cases k <;> decide

/-- Key list of an upsert: unchanged when the canonical type is already
present, extended at the end otherwise. -/
lemma upsertGroup_keys (g : List (String × DiffMatch)) (m : DiffMatch) :
    (upsertGroup g m).map Prod.fst =
      if m.normalizedType ∈ g.map Prod.fst then g.map Prod.fst
      else g.map Prod.fst ++ [m.normalizedType] := by
  induction g with
  | nil => simp [upsertGroup]
  | cons e rest ih =>
    obtain ⟨k, v⟩ := e
    by_cases hk : k = m.normalizedType
    · subst hk
      simp [upsertGroup]
    · simp only [upsertGroup, if_neg hk, List.map_cons, ih, List.mem_cons]
      have : ¬ m.normalizedType = k := fun h => hk h.symm
      by_cases hm : m.normalizedType ∈ rest.map Prod.fst <;>
        simp [hm, this]

/-- An upsert preserves distinctness of the canonical-type keys. -/
lemma upsertGroup_nodup (g : List (String × DiffMatch)) (m : DiffMatch)
    (h : (g.map Prod.fst).Nodup) : ((upsertGroup g m).map Prod.fst).Nodup := by
  rw [upsertGroup_keys]
  by_cases hm : m.normalizedType ∈ g.map Prod.fst
  · simpa [hm] using h
  · simp only [if_neg hm]
    simpa [List.nodup_append, hm] using h

/-- After folding any match list into a group object with distinct keys, the
keys are still distinct. -/
lemma typeGroups_fold_nodup (ms : List DiffMatch) :
    ∀ g : List (String × DiffMatch), (g.map Prod.fst).Nodup →
      ((ms.foldl upsertGroup g).map Prod.fst).Nodup := by
  induction ms with
  | nil => intro g hg; simpa using hg
  | cons m rest ih =>
    intro g hg
    exact ih (upsertGroup g m) (upsertGroup_nodup g m hg)

/-- The canonical-type keys of the entries built from any line list are
distinct. -/
lemma diffEntriesOfLines_nodup (lines : List String) :
    ((diffEntriesOfLines lines).map Prod.fst).Nodup := by
  have h := typeGroups_fold_nodup (lines.filterMap diffMatchOfLine) [] (by simp)
  simpa [diffEntriesOfLines, typeGroups, List.map_map, Function.comp] using h

--------------------------------------------------------------------------------
-- C3 and C4
--------------------------------------------------------------------------------

/-- C3: for every input text the differential mapping returned by
`parseDifferential` has at most one percentage entry per canonical cell type:
its canonical keys are pairwise distinct, however many synonym-variant lines
the input contained. -/
theorem c3_canonical_uniqueness (text : String) :
    (((parseDifferential text).entries).map Prod.fst).Nodup := by
  unfold parseDifferential
  by_cases ht : text = ""
  · simp [ht]
  · rw [if_neg ht]
    cases hdm : diffMethodOf text with
    | none => exact diffEntriesOfLines_nodup _
    | some v =>
      by_cases hv : (!(v = "") && jsIncludes v "not performed") = true
      · simp [hv]
      · simp only [hv, Bool.false_eq_true, if_false]
        exact diffEntriesOfLines_nodup _

/-- C4: whenever the differential-method search of `parseDifferential` finds
a method declaration whose (trimmed) value includes `not performed`, the
parser short-circuits: the result carries only that method status and no
percentage entries. -/
theorem c4_not_performed_short_circuit (text : String) (v : String)
    (hm : diffMethodOf text = some v)
    (hnp : jsIncludes v "not performed" = true) :
    parseDifferential text = ⟨some v, []⟩ := by
  have ht : text ≠ "" := by
    intro h
    rw [h] at hm
    exact Option.noConfusion ((by decide : diffMethodOf "" = none) ▸ hm)
  have hv : v ≠ "" := by
    intro h
    rw [h] at hnp
    exact Bool.noConfusion ((by decide : jsIncludes "" "not performed" = false) ▸ hnp)
  unfold parseDifferential
  rw [if_neg ht, hm]
  simp [hv, hnp]

/-- Witness for C4 at a concrete input. -/
theorem c4_witness :
    parseDifferential "Diff Method: not performed" =
      ⟨some "not performed", []⟩ :=
  c4_not_performed_short_circuit "Diff Method: not performed" "not performed"
    (by decide) (by decide)

--------------------------------------------------------------------------------
-- C8
--------------------------------------------------------------------------------

/-- Dropping the elements on which a function returns `none` does not change
a `filterMap`. -/
lemma filterMap_filter_of_none {α β : Type} (p : α → Bool) (f : α → Option β)
    (h : ∀ a, p a = false → f a = none) :
    ∀ l : List α, (l.filter p).filterMap f = l.filterMap f := by
  intro l
  induction l with
  | nil => rfl
  | cons a t ih =>
    by_cases hp : p a = true
    · cases hf : f a <;>
        simp [List.filter_cons, hp, List.filterMap_cons, hf, ih]
    · have hn : f a = none := h a (by simpa using hp)
      simp [List.filter_cons, hp, List.filterMap_cons, hn, ih]

/-- C8: a line containing an absolute-count marker contributes no entry to
the percentage mapping of `parseDifferential`: such a line yields no match at
all, and the entries of every parse either are computed from the input lines
with all marker lines removed, or are empty altogether. -/
theorem c8_absolute_count_exclusion :
    (∀ line : String, jsIncludes line "#" = true → diffMatchOfLine line = none) ∧
    (∀ text : String,
      (parseDifferential text).entries =
        diffEntriesOfLines ((jsSplitNewline text).filter fun l => !(jsIncludes l "#")) ∨
      (parseDifferential text).entries = []) := by
  constructor
  · intro line h
    simp [diffMatchOfLine, h]
  · intro text
    have hfilter : ∀ lines : List String,
        diffEntriesOfLines (lines.filter fun l => !(jsIncludes l "#")) =
          diffEntriesOfLines lines := by
      intro lines
      unfold diffEntriesOfLines
      rw [filterMap_filter_of_none _ diffMatchOfLine
        (fun l hl => by simp [diffMatchOfLine, show jsIncludes l "#" = true by simpa using hl])]
    unfold parseDifferential
    by_cases ht : text = ""
    · simp [ht]
    · rw [if_neg ht]
      cases hdm : diffMethodOf text with
      | none => exact Or.inl (hfilter _).symm
      | some v =>
        by_cases hv : (!(v = "") && jsIncludes v "not performed") = true
        · simp [hv]
        · simp only [hv, Bool.false_eq_true, if_false]
          exact Or.inl (hfilter _).symm

/-- Witness for C8 at a concrete marker line. -/
theorem c8_witness :
    jsIncludes "Neutrophils #: 4.2" "#" = true ∧
    diffMatchOfLine "Neutrophils #: 4.2" = none :=
  ⟨by decide, c8_absolute_count_exclusion.1 "Neutrophils #: 4.2" (by decide)⟩

--------------------------------------------------------------------------------
-- C9
--------------------------------------------------------------------------------

/-- The left-to-right scan of the regex engine returns exactly the first
element of the list of anchored matches enumerated over all start
positions. -/
lemma scanFirst_eq_head {α : Type} (m : List Char → Option α) :
    ∀ l : List Char,
      scanFirst m l =
        ((List.range (l.length + 1)).filterMap fun i => m (l.drop i)).head? := by
  intro l
  induction l with
  | nil =>
    show m [] = _
    simp only [List.length_nil]
    rw [show List.range 1 = [0] from rfl]
    cases h : m [] <;> simp [List.filterMap_cons, h]
  | cons c t ih =>
    rw [List.length_cons, List.range_succ_eq_map, List.filterMap_cons]
    cases h : m ((c :: t).drop 0) with
    | some a =>
      simp only [List.head?_cons]
      show scanFirst m (c :: t) = some a
      simp only [scanFirst]
      rw [show (c :: t).drop 0 = c :: t from rfl] at h
      rw [h]
    | none =>
      show scanFirst m (c :: t) = _
      simp only [scanFirst]
      rw [show (c :: t).drop 0 = c :: t from rfl] at h
      rw [h, List.filterMap_map]
      have hcongr :
          (List.range (t.length + 1)).filterMap ((fun i => m ((c :: t).drop i)) ∘ Nat.succ) =
            (List.range (t.length + 1)).filterMap fun i => m (t.drop i) := by
        apply List.filterMap_congr
        intro i _
        rfl
      rw [hcongr]
      exact ih

/-- Lookup misses an association list whose keys all differ from the sought
name. -/
lemma lookup_cbc_entries_notmem (text : String) (nm : String) :
    ∀ ks : List CBCKey, (∀ k ∈ ks, cbcKeyName k ≠ nm) →
      List.lookup nm (ks.filterMap fun k =>
        (cbcFirstCapture k text).map fun cap => (cbcKeyName k, cbcCoerce k cap)) = none := by
  intro ks
  induction ks with
  | nil => intro _; rfl
  | cons k₀ rest ih =>
    intro h
    cases hc : cbcFirstCapture k₀ text with
    | none =>
      simp only [List.filterMap_cons, hc, Option.map_none]
      exact ih fun k hk => h k (List.mem_cons_of_mem _ hk)
    | some cap =>
      simp only [List.filterMap_cons, hc, Option.map_some]
      have hne : (nm == cbcKeyName k₀) = false := by
        have := h k₀ (List.mem_cons_self _ _)
        simp [beq_eq_false_iff_ne]
        exact fun he => this he.symm
      simp only [List.lookup, hne]
      exact ih fun k hk => h k (List.mem_cons_of_mem _ hk)

/-- Lookup of a present key in the `parseCBC` association list yields the
coerced first capture of that key. -/
lemma lookup_cbc_entries_mem (text : String) (k : CBCKey) :
    ∀ ks : List CBCKey, k ∈ ks → (ks.map cbcKeyName).Nodup →
      List.lookup (cbcKeyName k) (ks.filterMap fun k' =>
        (cbcFirstCapture k' text).map fun cap => (cbcKeyName k', cbcCoerce k' cap)) =
        (cbcFirstCapture k text).map (cbcCoerce k) := by
  intro ks
  induction ks with
  | nil => intro hmem; exact absurd hmem (List.not_mem_nil k)
  | cons k₀ rest ih =>
    intro hmem hnd
    rw [List.map_cons, List.nodup_cons] at hnd
    rcases List.mem_cons.mp hmem with hk | hk
    · subst hk
      cases hc : cbcFirstCapture k text with
      | some cap =>
        simp only [List.filterMap_cons, hc, Option.map_some, List.lookup, beq_self_eq_true]
        rfl
      | none =>
        simp only [List.filterMap_cons, hc, Option.map_none]
        exact lookup_cbc_entries_notmem text (cbcKeyName k) rest fun k' hk' he =>
          hnd.1 (he ▸ List.mem_map_of_mem cbcKeyName hk')
    · have hne : (cbcKeyName k == cbcKeyName k₀) = false := by
        rw [beq_eq_false_iff_ne]
        intro he
        exact hnd.1 (he ▸ List.mem_map_of_mem cbcKeyName hk)
      cases hc : cbcFirstCapture k₀ text with
      | some cap =>
        simp only [List.filterMap_cons, hc, Option.map_some, List.lookup, hne]
        exact ih hk hnd.2
      | none =>
        simp only [List.filterMap_cons, hc, Option.map_none]
        exact ih hk hnd.2

/-- C9: `parseCBC` uses only the first match of each pattern of the label
table: its stored value for label `k` is the coerced capture of the earliest
start position at which the pattern of `k` matches (the head of the matches
enumerated over all positions), so later occurrences of the same label never
affect the output. -/
theorem c9_first_match_only (text : String) (k : CBCKey) :
    List.lookup (cbcKeyName k) (parseCBC text) =
      (((List.range (text.toList.length + 1)).filterMap fun i =>
          cbcAt k (text.toList.drop i)).head?).map (cbcCoerce k) := by
  by_cases ht : text = ""
  · subst ht
    show List.lookup (cbcKeyName k) (parseCBC "") = _
    rw [show parseCBC "" = [] from rfl]
    rw [show ("" : String).toList = [] from rfl]
    simp only [List.length_nil]
    rw [show List.range 1 = [0] from rfl]
    rw [show List.filterMap (fun i => cbcAt k (List.drop i [])) [0] =
      List.filterMap (fun _ => (none : Option (List Char))) [0] from
        List.filterMap_congr (fun i hi => by
          simp only [List.mem_singleton] at hi
          subst hi
          exact cbcAt_nil k)]
    rfl
  · rw [parseCBC, if_neg ht]
    rw [lookup_cbc_entries_mem text k cbcKeys (by cases k <;> decide) (by decide)]
    rw [cbcFirstCapture, scanFirst_eq_head]

--------------------------------------------------------------------------------
-- C7
--------------------------------------------------------------------------------

/-- C7: the three extractors return empty result structures on empty (falsy)
input, and a label whose pattern finds no match in the text is simply absent
from the `parseCBC` mapping (and a morphology finding without a match stays
unset) rather than being stored with a zero, null or error value.  Totality
of the embedded functions models the never-throws contract. -/
theorem c7_empty_input_and_omission :
    (parseCBC "" = [] ∧
     parseDifferential "" = ⟨none, []⟩ ∧
     parseMorphology "" = ⟨none, none, none, none, none⟩) ∧
    (∀ (text : String) (k : CBCKey), cbcFirstCapture k text = none →
      List.lookup (cbcKeyName k) (parseCBC text) = none) ∧
    (∀ text : String, scanFirst toxicAt text.toList = none →
      (parseMorphology text).toxicGranulation = none) := by
  refine ⟨by decide, ?_, ?_⟩
  · intro text k h
    by_cases ht : text = ""
    · subst ht; rfl
    · rw [parseCBC, if_neg ht]
      rw [lookup_cbc_entries_mem text k cbcKeys (by cases k <;> decide) (by decide)]
      rw [h]
      rfl
  · intro text h
    unfold parseMorphology
    by_cases ht : text = ""
    · simp [ht]
    · rw [if_neg ht]
      show (scanFirst toxicAt text.toList).map (fun c => jsTrim (String.mk c)) = none
      rw [h]
      rfl

/-- Witness for C7 at a concrete matchless input. -/
theorem c7_witness :
    List.lookup (cbcKeyName CBCKey.wbc) (parseCBC "zzz") = none ∧
    (parseMorphology "zzz").toxicGranulation = none :=
  ⟨c7_empty_input_and_omission.2.1 "zzz" CBCKey.wbc (by decide),
   c7_empty_input_and_omission.2.2 "zzz" (by decide)⟩

--------------------------------------------------------------------------------
-- C10
--------------------------------------------------------------------------------

/-- Lookup of a key misses the list from which all entries with that key have
been filtered out. -/
lemma lookup_filter_self (nm : String) :
    ∀ l : List (String × CBCVal),
      List.lookup nm (l.filter fun e => !(e.1 = nm)) = none := by
  intro l
  induction l with
  | nil => rfl
  | cons e t ih =>
    by_cases he : e.1 = nm
    · simpa [List.filter_cons, he] using ih
    · have hne : (nm == e.1) = false := by
        rw [beq_eq_false_iff_ne]; exact fun h => he h.symm
      simp [List.filter_cons, he, List.lookup, hne, ih]

/-- Filtering out the entries of a different key does not change a lookup. -/
lemma lookup_filter_ne (nm x : String) (h : nm ≠ x) :
    ∀ l : List (String × CBCVal),
      List.lookup nm (l.filter fun e => !(e.1 = x)) = List.lookup nm l := by
  intro l
  induction l with
  | nil => rfl
  | cons e t ih =>
    by_cases he : e.1 = x
    · have hnx : (nm == x) = false := by rw [beq_eq_false_iff_ne]; exact h
      simp [List.filter_cons, he, List.lookup, hnx, ih]
    · by_cases hnm : nm = e.1
      · simp [List.filter_cons, he, List.lookup, hnm]
      · have hne : (nm == e.1) = false := by rw [beq_eq_false_iff_ne]; exact hnm
        simp [List.filter_cons, he, List.lookup, hne, ih]

/-- C10: a CBC pattern whose capture parses to zero is stored in the lab
mapping with value zero, yet the narrative composer renders the lab list as
if that label were absent, because presence is tested by JavaScript
truthiness; and a morphology-sourced NRBC value of zero (with no
differential-sourced one) produces no NRBC fragment in the paragraph. -/
theorem c10_zero_truthiness :
    (∀ (text : String) (k : CBCKey) (cap : List Char), k ≠ CBCKey.date →
      cbcFirstCapture k text = some cap →
      parseFloatNum (String.mk cap) = 0 →
      List.lookup (cbcKeyName k) (parseCBC text) = some (CBCVal.num 0) ∧
      cbcParts (parseCBC text) =
        cbcParts ((parseCBC text).filter fun e => !(e.1 = cbcKeyName k))) ∧
    (∀ text : String, (parseMorphology text).nrbc = some 0 →
      List.lookup "nrbc" (parseDifferential text).entries = none →
      nrbcPart (parseDifferential text) (parseMorphology text) = none) := by
  constructor
  · intro text k cap hkd hc hzero
    have ht : text ≠ "" := by
      intro h
      rw [h] at hc
      rw [show cbcFirstCapture k "" = cbcAt k [] from rfl, cbcAt_nil k] at hc
      exact Option.noConfusion hc
    have hcoerce : cbcCoerce k cap = CBCVal.num 0 := by
      cases k <;>
        first
        | exact absurd rfl hkd
        | simp [cbcCoerce, hzero]
    have hlook : List.lookup (cbcKeyName k) (parseCBC text) = some (CBCVal.num 0) := by
      rw [parseCBC, if_neg ht]
      rw [lookup_cbc_entries_mem text k cbcKeys (by cases k <;> decide) (by decide)]
      rw [hc]
      simp [hcoerce]
    refine ⟨hlook, ?_⟩
    unfold cbcParts
    apply List.filterMap_congr
    intro e _
    by_cases he : e.1 = cbcKeyName k
    · rw [he, hlook, lookup_filter_self]
      simp [truthyVal]
    · rw [lookup_filter_ne e.1 (cbcKeyName k) he]
  · intro text hm hd
    unfold nrbcPart
    rw [hd, hm]
    simp

/-- Witness for C10 at concrete inputs: a zero white-cell count and a zero
morphology NRBC on an absolute-count line. -/
theorem c10_witness :
    (List.lookup (cbcKeyName CBCKey.wbc) (parseCBC "WBC: 0") = some (CBCVal.num 0) ∧
     cbcParts (parseCBC "WBC: 0") =
       cbcParts ((parseCBC "WBC: 0").filter fun e => !(e.1 = cbcKeyName CBCKey.wbc))) ∧
    nrbcPart (parseDifferential "NRBC% #: 0") (parseMorphology "NRBC% #: 0") = none :=
  ⟨c10_zero_truthiness.1 "WBC: 0" CBCKey.wbc "0".toList (by decide) (by decide) (by decide),
   c10_zero_truthiness.2 "NRBC% #: 0" (by decide) (by decide)⟩

--------------------------------------------------------------------------------
-- C6 (amended)
--------------------------------------------------------------------------------

/-- Truthy presence of a label in the lab mapping. -/
def truthyLookup (cbc : List (String × CBCVal)) (nm : String) : Bool :=
  match List.lookup nm cbc with
  | some v => truthyVal v
  | none => false

/-- Modelled from the spec (narrative step 1), as amended by
`c6_mpv_not_listed`: the narrated lab list keeps, of the nine rendered
labels in their fixed canonical order, exactly those whose value is present
and truthy, rendering each with its prefix and unit of measure; absent
labels, zero values, MPV and the date get no fragment. -/
def specNarratedLabs (cbc : List (String × CBCVal)) : List String :=
  (cbcPartsTable.filter fun e => truthyLookup cbc e.1).map fun e =>
    e.2.1 ++ (match List.lookup e.1 cbc with
              | some v => cbcValStr v
              | none => "") ++ e.2.2

/-- The source `cbcParts` array agrees with the spec-side narrated list. -/
lemma cbcParts_eq_spec (cbc : List (String × CBCVal)) :
    cbcParts cbc = specNarratedLabs cbc := by
  unfold cbcParts specNarratedLabs
  induction cbcPartsTable with
  | nil => rfl
  | cons e t ih =>
    cases hl : List.lookup e.1 cbc with
    | none =>
      simp [List.filterMap_cons, List.filter_cons, truthyLookup, hl, ih]
    | some v =>
      cases hv : truthyVal v with
      | true =>
        simp [List.filterMap_cons, List.filter_cons, truthyLookup, hl, hv, ih]
      | false =>
        simp [List.filterMap_cons, List.filter_cons, truthyLookup, hl, hv, ih]

/-- Whatever the later sections contribute, the paragraph is the CBC section
followed by a remainder. -/
lemma generate_decomp (b : Bundle) :
    ∃ s, generateCBCParagraph b = cbcSection b.cbc ++ s := by
  unfold generateCBCParagraph
  by_cases hmp : (morphParts b.differential b.morphology).isEmpty = true
  · simp only [hmp, Bool.not_true, Bool.false_eq_true, if_false]
    by_cases hc : (jsEndsWith (jsTrim (cbcSection b.cbc ++ diffSection b.differential)) "," ||
        (jsIncludes (cbcSection b.cbc ++ diffSection b.differential) "shows" &&
          !(jsEndsWith (jsTrim (cbcSection b.cbc ++ diffSection b.differential)) "."))) = true
    · rw [if_pos hc]
      exact ⟨diffSection b.differential ++ ".", by rw [String.append_assoc]⟩
    · rw [if_neg (by simpa using hc)]
      exact ⟨diffSection b.differential, rfl⟩
  · simp only [hmp, Bool.not_false, if_true]
    by_cases hc : (jsEndsWith (jsTrim (cbcSection b.cbc ++ diffSection b.differential)) "," ||
        jsIncludes (cbcSection b.cbc ++ diffSection b.differential) "shows") = true
    · rw [if_pos hc]
      refine ⟨diffSection b.differential ++ ", " ++
        String.intercalate ", " (morphParts b.differential b.morphology) ++ ".", ?_⟩
      rw [String.append_assoc, String.append_assoc, String.append_assoc,
        String.append_assoc, String.append_assoc]
    · rw [if_neg (by simpa using hc)]
      refine ⟨diffSection b.differential ++ " " ++
        String.intercalate ", " (morphParts b.differential b.morphology) ++ ".", ?_⟩
      rw [String.append_assoc, String.append_assoc, String.append_assoc,
        String.append_assoc, String.append_assoc]

/-- C6, amended by `c6_mpv_not_listed`: for every bundle with at least one
lab value present, the paragraph opens with the dated or undated lead-in
sentence, followed by the narrated lab list — the present truthy values of
the nine rendered labels, in fixed canonical order, each with its unit,
comma-joined — terminated with a period; absent or zero values, MPV and the
date are skipped without a placeholder. -/
theorem c6_cbc_section_amended (b : Bundle) (h : b.cbc ≠ []) :
    cbcParts b.cbc = specNarratedLabs b.cbc ∧
    (cbcLeadIn b.cbc = "CBC results are as follows: " ∨
      ∃ d, cbcLeadIn b.cbc = "CBC results from " ++ d ++ " are as follows: ") ∧
    ∃ rest, generateCBCParagraph b =
      cbcLeadIn b.cbc ++ String.intercalate ", " (cbcParts b.cbc) ++ "." ++ rest := by
  refine ⟨cbcParts_eq_spec b.cbc, ?_, ?_⟩
  · unfold cbcLeadIn
    cases hl : List.lookup "date" b.cbc with
    | none => exact Or.inl rfl
    | some v =>
      by_cases hv : truthyVal v = true
      · exact Or.inr ⟨cbcValStr v, by simp [hv]⟩
      · refine Or.inl ?_
        simp [hv]
  · obtain ⟨s, hs⟩ := generate_decomp b
    have hne : b.cbc.isEmpty ≠ true := by
      cases hcbc : b.cbc with
      | nil => exact absurd hcbc h
      | cons x xs => simp
    rw [hs, cbcSection, if_neg hne]
    exact ⟨s, rfl⟩

/-- Witness for the amended C6 at a concrete bundle. -/
theorem c6_amended_witness :
    cbcParts (parseAll "WBC: 7.2").cbc = specNarratedLabs (parseAll "WBC: 7.2").cbc ∧
    (cbcLeadIn (parseAll "WBC: 7.2").cbc = "CBC results are as follows: " ∨
      ∃ d, cbcLeadIn (parseAll "WBC: 7.2").cbc =
        "CBC results from " ++ d ++ " are as follows: ") ∧
    ∃ rest, generateCBCParagraph (parseAll "WBC: 7.2") =
      cbcLeadIn (parseAll "WBC: 7.2").cbc ++
        String.intercalate ", " (cbcParts (parseAll "WBC: 7.2").cbc) ++ "." ++ rest :=
  c6_cbc_section_amended (parseAll "WBC: 7.2") (by decide)

end Marrow
